import Mathlib

/-!
Shallow embedding of the `binpack` Go package (`pack.go`) and proofs about it.

The Go code packs axis-aligned rectangles: indices are sorted by descending
area, the first rectangle is placed at (0, 0), each later rectangle is placed
at the best candidate position derived from the edges of already-placed
rectangles (smallest resulting bounding-box area, ties broken by squared
distance between the candidate's center and the bounding box's center, first
best candidate wins), with a fallback at (maxX, minY).  Finally all placements
are shifted so the layout's top-left corner is (0, 0) and written back.

Go `int` is modelled by unbounded `Int` (overflow is out of scope; the
`math.MaxInt64` sentinel of `findBestPlacement` is kept literally as
`2^63 - 1`).  Go integer division truncates toward zero, which is `Int.tdiv`.
The iteration order of a Go map (used by `getCandidatePositions`) is not
specified by Go and is randomized by the runtime; the model therefore exposes
the candidate enumeration order as a parameter (`packAux`), with
`getCandidatePositions` providing one canonical order (first-insertion order,
each distinct value once) used by `Pack`.
-/

namespace BinPack

/-- `Rectangle` from pack.go: the dimensions of a rectangle. -/
structure Rectangle where
  width : Int
  height : Int
deriving DecidableEq, Repr

/-- `Rectangle.Area` from pack.go. -/
def Rectangle.area (r : Rectangle) : Int := r.width * r.height

/-- `placement` from pack.go: a rectangle placed at a specific position. -/
structure Placement where
  position : Nat
  x : Int
  y : Int
  width : Int
  height : Int
deriving DecidableEq, Repr

/-- `bounds` from pack.go: the bounding box for a set of rectangles. -/
structure Bounds where
  minX : Int
  minY : Int
  maxX : Int
  maxY : Int
deriving DecidableEq, Repr

/-- Go `math.MaxInt64`, the sentinel initial score in `findBestPlacement`. -/
def maxInt64 : Int := 9223372036854775807

/-- `expandBoundsForPlacement` from pack.go: expand `b` to include rectangle
`r`.  The four independent conditional updates of the Go code are written as
four conditional fields. -/
def expandBoundsForPlacement (r : Placement) (b : Bounds) : Bounds :=
  { minX := if r.x < b.minX then r.x else b.minX
    minY := if r.y < b.minY then r.y else b.minY
    maxX := if r.x + r.width > b.maxX then r.x + r.width else b.maxX
    maxY := if r.y + r.height > b.maxY then r.y + r.height else b.maxY }

/-- `computeBounds` from pack.go: the minimal bounding box enclosing all
rectangles.  Go initializes from `placements[0]` and then folds the expansion
step over the whole slice (so the model is defined on nonempty lists; Go
panics on an empty slice, which `Pack` never passes). -/
def computeBounds (placements : List Placement) : Bounds :=
  match placements with
  | [] => ⟨0, 0, 0, 0⟩
  | p :: _ =>
      placements.foldl (fun b r => expandBoundsForPlacement r b)
        ⟨p.x, p.y, p.x + p.width, p.y + p.height⟩

/-- Insert a coordinate if not already present (Go inserts into a
`map[int]bool`; the model keeps first-insertion order). -/
def insertUnique (l : List Int) (v : Int) : List Int :=
  if v ∈ l then l else l ++ [v]

/-- `getCandidatePositions` from pack.go: the distinct x and y coordinates of
the edges of placed rectangles.  Go materializes two map key sets in an
unspecified order; the model lists each distinct value once, in
first-insertion order. -/
def getCandidatePositions (rects : List Placement) : List Int × List Int :=
  (rects.foldl (fun acc r => insertUnique (insertUnique acc r.x) (r.x + r.width)) [],
   rects.foldl (fun acc r => insertUnique (insertUnique acc r.y) (r.y + r.height)) [])

/-- `doRectanglesIntersect` from pack.go: true if rectangles `a` and `b`
intersect (half-open semantics: edge-touching is not intersection). -/
def doRectanglesIntersect (a b : Placement) : Bool :=
  if a.x ≥ b.x + b.width ∨ b.x ≥ a.x + a.width then false
  else if a.y ≥ b.y + b.height ∨ b.y ≥ a.y + a.height then false
  else true

/-- `hasIntersection` from pack.go: whether `candidate` intersects any
rectangle in `placements`. -/
def hasIntersection (candidate : Placement) (placements : List Placement) : Bool :=
  placements.any (fun p => doRectanglesIntersect candidate p)

/-- The score of a candidate position `(cx, cy)` for rectangle `r` given the
current bounding box `b`: the inline area and squared center-distance
computation of `findBestPlacement` (Go `/` on int truncates toward zero,
hence `Int.tdiv`). -/
def scoreOf (b : Bounds) (r : Rectangle) (cx cy : Int) : Int × Int :=
  let candidate : Placement := ⟨0, cx, cy, r.width, r.height⟩
  let candidateBB := expandBoundsForPlacement candidate b
  let candidateArea := (candidateBB.maxX - candidateBB.minX) * (candidateBB.maxY - candidateBB.minY)
  let bbCenterX := candidateBB.minX + Int.tdiv (candidateBB.maxX - candidateBB.minX) 2
  let bbCenterY := candidateBB.minY + Int.tdiv (candidateBB.maxY - candidateBB.minY) 2
  let candidateCenterX := cx + Int.tdiv r.width 2
  let candidateCenterY := cy + Int.tdiv r.height 2
  let dx := candidateCenterX - bbCenterX
  let dy := candidateCenterY - bbCenterY
  (candidateArea, dx * dx + dy * dy)

/-- Strict lexicographic order on (area, center distance): exactly the
update condition of `findBestPlacement`. -/
def lexLT (p q : Int × Int) : Prop := p.1 < q.1 ∨ (p.1 = q.1 ∧ p.2 < q.2)

instance (p q : Int × Int) : Decidable (lexLT p q) := by
  unfold lexLT; infer_instance

/-- Non-strict companion of `lexLT`. -/
def lexLE (p q : Int × Int) : Prop := lexLT p q ∨ p = q

instance (p q : Int × Int) : Decidable (lexLE p q) := by
  unfold lexLE; infer_instance

/-- The mutable loop state of `findBestPlacement`. -/
structure SearchState where
  bestX : Int
  bestY : Int
  bestArea : Int
  bestCenterDistance : Int
  found : Bool
deriving DecidableEq, Repr

/-- The (area, distance) score held in a search state. -/
def stateScore (s : SearchState) : Int × Int := (s.bestArea, s.bestCenterDistance)

/-- The loop body of `findBestPlacement` for one candidate `(cx, cy)`: skip
it if it intersects an existing placement, otherwise keep it when its score
is strictly better (smaller area, or equal area and smaller center distance)
than the best so far. -/
def considerCandidate (b : Bounds) (r : Rectangle) (placements : List Placement)
    (s : SearchState) (cx cy : Int) : SearchState :=
  if hasIntersection ⟨0, cx, cy, r.width, r.height⟩ placements then s
  else
    let sc := scoreOf b r cx cy
    if lexLT sc (stateScore s) then ⟨cx, cy, sc.1, sc.2, true⟩ else s

/-- `findBestPlacement` from pack.go: nested loops over candidate x and y
coordinates, threading the best-so-far state; returns the chosen coordinates
and whether any candidate was kept. -/
def findBestPlacement (xCandidates yCandidates : List Int) (b : Bounds)
    (r : Rectangle) (placements : List Placement) : Int × Int × Bool :=
  let s := xCandidates.foldl
    (fun s cx => yCandidates.foldl (fun s cy => considerCandidate b r placements s cx cy) s)
    ⟨0, 0, maxInt64, maxInt64, false⟩
  (s.bestX, s.bestY, s.found)

/-- The rectangle at index `n` (Go `p.Rectangle(n)`; out-of-range access
would panic in Go and is never performed by `Pack`). -/
def rectAt (rects : List Rectangle) (n : Nat) : Rectangle := rects.getD n ⟨0, 0⟩

/-- The index list `0..count-1` sorted by descending area, as produced by the
`sort.Slice` call in `Pack` (Go guarantees a sort with respect to
`area i > area j`; the model uses insertion sort, one such sort). -/
def sortedPositions (rects : List Rectangle) : List Nat :=
  List.insertionSort (fun i j => (rectAt rects j).area ≤ (rectAt rects i).area)
    (List.range rects.length)

/-- One iteration of the placement loop of `Pack`: seed the first rectangle
at (0, 0), otherwise query `findBestPlacement` on the candidate coordinates
(enumerated in the order given by `ordFn`) and fall back to
`(bounds.maxX, bounds.minY)` when no candidate was found. -/
def packStepWith (ordFn : List Placement → List Int × List Int)
    (rects : List Rectangle) (placements : List Placement) (position : Nat) :
    List Placement :=
  let rectangle := rectAt rects position
  match placements with
  | [] => [⟨position, 0, 0, rectangle.width, rectangle.height⟩]
  | _ :: _ =>
    let cands := ordFn placements
    let b := computeBounds placements
    let res := findBestPlacement cands.1 cands.2 b rectangle placements
    let best := if res.2.2 then (res.1, res.2.1) else (b.maxX, b.minY)
    placements ++ [⟨position, best.1, best.2, rectangle.width, rectangle.height⟩]

/-- The unnormalized placement list built by the main loop of `Pack`. -/
def packPlacementsAux (ordFn : List Placement → List Int × List Int)
    (rects : List Rectangle) : List Placement :=
  (sortedPositions rects).foldl (packStepWith ordFn rects) []

/-- `Pack` from pack.go, parameterized by the candidate enumeration order
(a Go map iteration order).  Returns the overall dimensions together with the
write-back list: one `Place(position, x - minX, y - minY)` call per placement,
in call order (the dimensions are carried along for the statements). -/
def packAux (ordFn : List Placement → List Int × List Int)
    (rects : List Rectangle) : (Int × Int) × List Placement :=
  match rects with
  | [] => ((0, 0), [])
  | _ :: _ =>
    let placements := packPlacementsAux ordFn rects
    let b := computeBounds placements
    ((b.maxX - b.minX, b.maxY - b.minY),
     placements.map (fun pl => { pl with x := pl.x - b.minX, y := pl.y - b.minY }))

/-- The unnormalized placement list of `Pack` with the canonical candidate
order. -/
def packPlacements (rects : List Rectangle) : List Placement :=
  packPlacementsAux getCandidatePositions rects

/-- `Pack` from pack.go with the canonical candidate enumeration order. -/
def Pack (rects : List Rectangle) : (Int × Int) × List Placement :=
  packAux getCandidatePositions rects

/-- The row-major enumeration of candidate pairs, as visited by the nested
loops of `findBestPlacement`. -/
def candidatePairs (xCandidates yCandidates : List Int) : List (Int × Int) :=
  xCandidates.flatMap (fun cx => yCandidates.map (fun cy => (cx, cy)))

/-- The candidate pairs that survive the overlap filter of
`findBestPlacement`, in visiting order. -/
def survivors (xCandidates yCandidates : List Int) (r : Rectangle)
    (placements : List Placement) : List (Int × Int) :=
  (candidatePairs xCandidates yCandidates).filter
    (fun c => !hasIntersection ⟨0, c.1, c.2, r.width, r.height⟩ placements)

/-- Two half-open integer intervals share at least one point. -/
def intervalsSharePoint (s1 e1 s2 e2 : Int) : Prop :=
  ∃ t : Int, (s1 ≤ t ∧ t < e1) ∧ (s2 ≤ t ∧ t < e2)

/-! ### Order lemmas for the (area, center distance) score -/

theorem lexLT_irrefl (p : Int × Int) : ¬ lexLT p p := by
  unfold lexLT; omega

theorem lexLT_trans {p q t : Int × Int} (h1 : lexLT p q) (h2 : lexLT q t) : lexLT p t := by
  unfold lexLT at *; omega

theorem lexLE_refl (p : Int × Int) : lexLE p p := Or.inr rfl

theorem lexLE_trans {p q t : Int × Int} (h1 : lexLE p q) (h2 : lexLE q t) : lexLE p t := by
  rcases h1 with h1 | rfl
  · rcases h2 with h2 | rfl
    · exact Or.inl (lexLT_trans h1 h2)
    · exact Or.inl h1
  · exact h2

theorem lexLE_of_lexLT {p q : Int × Int} (h : lexLT p q) : lexLE p q := Or.inl h

theorem lexLT_of_lexLE_of_lexLT {p q t : Int × Int} (h1 : lexLE p q) (h2 : lexLT q t) :
    lexLT p t := by
  rcases h1 with h1 | rfl
  · exact lexLT_trans h1 h2
  · exact h2

theorem lexLT_of_lexLT_of_lexLE {p q t : Int × Int} (h1 : lexLT p q) (h2 : lexLE q t) :
    lexLT p t := by
  rcases h2 with h2 | rfl
  · exact lexLT_trans h1 h2
  · exact h1

theorem lexLE_of_not_lexLT {p q : Int × Int} (h : ¬ lexLT p q) : lexLE q p := by
  rcases p with ⟨a1, d1⟩; rcases q with ⟨a2, d2⟩
  unfold lexLE lexLT at *
  simp only [Prod.mk.injEq]
  omega

/-! ### Lemmas about `expandBoundsForPlacement` and `computeBounds` -/

theorem expand_minX_le (r : Placement) (b : Bounds) :
    (expandBoundsForPlacement r b).minX ≤ b.minX ∧ (expandBoundsForPlacement r b).minX ≤ r.x := by
  unfold expandBoundsForPlacement; dsimp only; split <;> omega

theorem expand_minY_le (r : Placement) (b : Bounds) :
    (expandBoundsForPlacement r b).minY ≤ b.minY ∧ (expandBoundsForPlacement r b).minY ≤ r.y := by
  unfold expandBoundsForPlacement; dsimp only; split <;> omega

theorem expand_maxX_ge (r : Placement) (b : Bounds) :
    b.maxX ≤ (expandBoundsForPlacement r b).maxX ∧
      r.x + r.width ≤ (expandBoundsForPlacement r b).maxX := by
  unfold expandBoundsForPlacement; dsimp only; split <;> omega

theorem expand_maxY_ge (r : Placement) (b : Bounds) :
    b.maxY ≤ (expandBoundsForPlacement r b).maxY ∧
      r.y + r.height ≤ (expandBoundsForPlacement r b).maxY := by
  unfold expandBoundsForPlacement; dsimp only; split <;> omega

theorem expand_minX_cases (r : Placement) (b : Bounds) :
    (expandBoundsForPlacement r b).minX = r.x ∨ (expandBoundsForPlacement r b).minX = b.minX := by
  unfold expandBoundsForPlacement; dsimp only; split <;> simp

theorem expand_minY_cases (r : Placement) (b : Bounds) :
    (expandBoundsForPlacement r b).minY = r.y ∨ (expandBoundsForPlacement r b).minY = b.minY := by
  unfold expandBoundsForPlacement; dsimp only; split <;> simp

theorem expand_maxX_cases (r : Placement) (b : Bounds) :
    (expandBoundsForPlacement r b).maxX = r.x + r.width ∨
      (expandBoundsForPlacement r b).maxX = b.maxX := by
  unfold expandBoundsForPlacement; dsimp only; split <;> simp

theorem expand_maxY_cases (r : Placement) (b : Bounds) :
    (expandBoundsForPlacement r b).maxY = r.y + r.height ∨
      (expandBoundsForPlacement r b).maxY = b.maxY := by
  unfold expandBoundsForPlacement; dsimp only; split <;> simp

/-- The fold of `expandBoundsForPlacement` used by `computeBounds`. -/
def foldExpand (ps : List Placement) (b0 : Bounds) : Bounds :=
  ps.foldl (fun b r => expandBoundsForPlacement r b) b0

theorem foldExpand_minX_le_init (ps : List Placement) (b0 : Bounds) :
    (foldExpand ps b0).minX ≤ b0.minX := by
  induction ps generalizing b0 with
  | nil => exact le_refl _
  | cons p ps ih =>
      exact le_trans (ih (expandBoundsForPlacement p b0)) (expand_minX_le p b0).1

theorem foldExpand_minY_le_init (ps : List Placement) (b0 : Bounds) :
    (foldExpand ps b0).minY ≤ b0.minY := by
  induction ps generalizing b0 with
  | nil => exact le_refl _
  | cons p ps ih =>
      exact le_trans (ih (expandBoundsForPlacement p b0)) (expand_minY_le p b0).1

theorem foldExpand_maxX_ge_init (ps : List Placement) (b0 : Bounds) :
    b0.maxX ≤ (foldExpand ps b0).maxX := by
  induction ps generalizing b0 with
  | nil => exact le_refl _
  | cons p ps ih =>
      exact le_trans (expand_maxX_ge p b0).1 (ih (expandBoundsForPlacement p b0))

theorem foldExpand_maxY_ge_init (ps : List Placement) (b0 : Bounds) :
    b0.maxY ≤ (foldExpand ps b0).maxY := by
  induction ps generalizing b0 with
  | nil => exact le_refl _
  | cons p ps ih =>
      exact le_trans (expand_maxY_ge p b0).1 (ih (expandBoundsForPlacement p b0))

theorem foldExpand_minX_le_mem (ps : List Placement) (b0 : Bounds) (p : Placement)
    (hp : p ∈ ps) : (foldExpand ps b0).minX ≤ p.x := by
  induction ps generalizing b0 with
  | nil => cases hp
  | cons q ps ih =>
      rcases List.mem_cons.mp hp with rfl | hp
      · exact le_trans (foldExpand_minX_le_init ps (expandBoundsForPlacement p b0))
          (expand_minX_le p b0).2
      · exact ih (expandBoundsForPlacement q b0) hp

theorem foldExpand_minY_le_mem (ps : List Placement) (b0 : Bounds) (p : Placement)
    (hp : p ∈ ps) : (foldExpand ps b0).minY ≤ p.y := by
  induction ps generalizing b0 with
  | nil => cases hp
  | cons q ps ih =>
      rcases List.mem_cons.mp hp with rfl | hp
      · exact le_trans (foldExpand_minY_le_init ps (expandBoundsForPlacement p b0))
          (expand_minY_le p b0).2
      · exact ih (expandBoundsForPlacement q b0) hp

theorem foldExpand_maxX_ge_mem (ps : List Placement) (b0 : Bounds) (p : Placement)
    (hp : p ∈ ps) : p.x + p.width ≤ (foldExpand ps b0).maxX := by
  induction ps generalizing b0 with
  | nil => cases hp
  | cons q ps ih =>
      rcases List.mem_cons.mp hp with rfl | hp
      · exact le_trans (expand_maxX_ge p b0).2
          (foldExpand_maxX_ge_init ps (expandBoundsForPlacement p b0))
      · exact ih (expandBoundsForPlacement q b0) hp

theorem foldExpand_maxY_ge_mem (ps : List Placement) (b0 : Bounds) (p : Placement)
    (hp : p ∈ ps) : p.y + p.height ≤ (foldExpand ps b0).maxY := by
  induction ps generalizing b0 with
  | nil => cases hp
  | cons q ps ih =>
      rcases List.mem_cons.mp hp with rfl | hp
      · exact le_trans (expand_maxY_ge p b0).2
          (foldExpand_maxY_ge_init ps (expandBoundsForPlacement p b0))
      · exact ih (expandBoundsForPlacement q b0) hp

theorem foldExpand_minX_attained (ps : List Placement) (b0 : Bounds) :
    (foldExpand ps b0).minX = b0.minX ∨ ∃ p ∈ ps, (foldExpand ps b0).minX = p.x := by
  induction ps generalizing b0 with
  | nil => exact Or.inl rfl
  | cons q ps ih =>
      rcases ih (expandBoundsForPlacement q b0) with h | ⟨p, hp, h⟩
      · rcases expand_minX_cases q b0 with h2 | h2
        · exact Or.inr ⟨q, List.mem_cons_self q ps, by rw [foldExpand] at *; simp_all⟩
        · exact Or.inl (by rw [foldExpand] at *; simp_all)
      · exact Or.inr ⟨p, List.mem_cons_of_mem q hp, h⟩

theorem foldExpand_minY_attained (ps : List Placement) (b0 : Bounds) :
    (foldExpand ps b0).minY = b0.minY ∨ ∃ p ∈ ps, (foldExpand ps b0).minY = p.y := by
  induction ps generalizing b0 with
  | nil => exact Or.inl rfl
  | cons q ps ih =>
      rcases ih (expandBoundsForPlacement q b0) with h | ⟨p, hp, h⟩
      · rcases expand_minY_cases q b0 with h2 | h2
        · exact Or.inr ⟨q, List.mem_cons_self q ps, by rw [foldExpand] at *; simp_all⟩
        · exact Or.inl (by rw [foldExpand] at *; simp_all)
      · exact Or.inr ⟨p, List.mem_cons_of_mem q hp, h⟩

theorem foldExpand_maxX_attained (ps : List Placement) (b0 : Bounds) :
    (foldExpand ps b0).maxX = b0.maxX ∨ ∃ p ∈ ps, (foldExpand ps b0).maxX = p.x + p.width := by
  induction ps generalizing b0 with
  | nil => exact Or.inl rfl
  | cons q ps ih =>
      rcases ih (expandBoundsForPlacement q b0) with h | ⟨p, hp, h⟩
      · rcases expand_maxX_cases q b0 with h2 | h2
        · exact Or.inr ⟨q, List.mem_cons_self q ps, by rw [foldExpand] at *; simp_all⟩
        · exact Or.inl (by rw [foldExpand] at *; simp_all)
      · exact Or.inr ⟨p, List.mem_cons_of_mem q hp, h⟩

theorem foldExpand_maxY_attained (ps : List Placement) (b0 : Bounds) :
    (foldExpand ps b0).maxY = b0.maxY ∨ ∃ p ∈ ps, (foldExpand ps b0).maxY = p.y + p.height := by
  induction ps generalizing b0 with
  | nil => exact Or.inl rfl
  | cons q ps ih =>
      rcases ih (expandBoundsForPlacement q b0) with h | ⟨p, hp, h⟩
      · rcases expand_maxY_cases q b0 with h2 | h2
        · exact Or.inr ⟨q, List.mem_cons_self q ps, by rw [foldExpand] at *; simp_all⟩
        · exact Or.inl (by rw [foldExpand] at *; simp_all)
      · exact Or.inr ⟨p, List.mem_cons_of_mem q hp, h⟩

theorem computeBounds_eq_foldExpand (p : Placement) (ps : List Placement) :
    computeBounds (p :: ps) = foldExpand (p :: ps) ⟨p.x, p.y, p.x + p.width, p.y + p.height⟩ :=
  rfl

theorem computeBounds_minX_le (ps : List Placement) (p : Placement) (hp : p ∈ ps) :
    (computeBounds ps).minX ≤ p.x := by
  cases ps with
  | nil => cases hp
  | cons q t => exact foldExpand_minX_le_mem _ _ p hp

theorem computeBounds_minY_le (ps : List Placement) (p : Placement) (hp : p ∈ ps) :
    (computeBounds ps).minY ≤ p.y := by
  cases ps with
  | nil => cases hp
  | cons q t => exact foldExpand_minY_le_mem _ _ p hp

theorem computeBounds_le_maxX (ps : List Placement) (p : Placement) (hp : p ∈ ps) :
    p.x + p.width ≤ (computeBounds ps).maxX := by
  cases ps with
  | nil => cases hp
  | cons q t => exact foldExpand_maxX_ge_mem _ _ p hp

theorem computeBounds_le_maxY (ps : List Placement) (p : Placement) (hp : p ∈ ps) :
    p.y + p.height ≤ (computeBounds ps).maxY := by
  cases ps with
  | nil => cases hp
  | cons q t => exact foldExpand_maxY_ge_mem _ _ p hp

theorem computeBounds_minX_attained (ps : List Placement) (h : ps ≠ []) :
    ∃ p ∈ ps, (computeBounds ps).minX = p.x := by
  cases ps with
  | nil => exact absurd rfl h
  | cons q t =>
      rcases foldExpand_minX_attained (q :: t) ⟨q.x, q.y, q.x + q.width, q.y + q.height⟩ with
        h2 | ⟨p, hp, h2⟩
      · exact ⟨q, List.mem_cons_self q t, h2⟩
      · exact ⟨p, hp, h2⟩

theorem computeBounds_minY_attained (ps : List Placement) (h : ps ≠ []) :
    ∃ p ∈ ps, (computeBounds ps).minY = p.y := by
  cases ps with
  | nil => exact absurd rfl h
  | cons q t =>
      rcases foldExpand_minY_attained (q :: t) ⟨q.x, q.y, q.x + q.width, q.y + q.height⟩ with
        h2 | ⟨p, hp, h2⟩
      · exact ⟨q, List.mem_cons_self q t, h2⟩
      · exact ⟨p, hp, h2⟩

theorem computeBounds_maxX_attained (ps : List Placement) (h : ps ≠ []) :
    ∃ p ∈ ps, (computeBounds ps).maxX = p.x + p.width := by
  cases ps with
  | nil => exact absurd rfl h
  | cons q t =>
      rcases foldExpand_maxX_attained (q :: t) ⟨q.x, q.y, q.x + q.width, q.y + q.height⟩ with
        h2 | ⟨p, hp, h2⟩
      · exact ⟨q, List.mem_cons_self q t, h2⟩
      · exact ⟨p, hp, h2⟩

theorem computeBounds_maxY_attained (ps : List Placement) (h : ps ≠ []) :
    ∃ p ∈ ps, (computeBounds ps).maxY = p.y + p.height := by
  cases ps with
  | nil => exact absurd rfl h
  | cons q t =>
      rcases foldExpand_maxY_attained (q :: t) ⟨q.x, q.y, q.x + q.width, q.y + q.height⟩ with
        h2 | ⟨p, hp, h2⟩
      · exact ⟨q, List.mem_cons_self q t, h2⟩
      · exact ⟨p, hp, h2⟩

/-! ### Lemmas about the intersection test -/

theorem doRectanglesIntersect_symm (a b : Placement) :
    doRectanglesIntersect a b = doRectanglesIntersect b a := by
  unfold doRectanglesIntersect
  split_ifs <;> first | rfl | omega

theorem doRectanglesIntersect_false_of_right_of (a b : Placement)
    (h : a.x ≥ b.x + b.width) : doRectanglesIntersect a b = false := by
  unfold doRectanglesIntersect
  rw [if_pos (Or.inl h)]

/-- The position field plays no role in the intersection test. -/
theorem doRectanglesIntersect_position_irrel (pos : Nat) (x y w h : Int) (q : Placement) :
    doRectanglesIntersect ⟨pos, x, y, w, h⟩ q = doRectanglesIntersect ⟨0, x, y, w, h⟩ q := rfl

/-- Translating both rectangles by the same vector does not change the
intersection test. -/
theorem doRectanglesIntersect_shift (a b : Placement) (dx dy : Int) :
    doRectanglesIntersect ⟨a.position, a.x - dx, a.y - dy, a.width, a.height⟩
        ⟨b.position, b.x - dx, b.y - dy, b.width, b.height⟩ =
      doRectanglesIntersect a b := by
  unfold doRectanglesIntersect
  dsimp only
  split_ifs <;> first | rfl | omega

theorem hasIntersection_eq_false_iff (c : Placement) (ps : List Placement) :
    hasIntersection c ps = false ↔ ∀ p ∈ ps, doRectanglesIntersect c p = false := by
  unfold hasIntersection
  simp [List.any_eq_false]

/-! ### Lemmas about the candidate coordinate sets -/

theorem mem_insertUnique_self (l : List Int) (v : Int) : v ∈ insertUnique l v := by
  unfold insertUnique
  split
  · assumption
  · simp

theorem mem_insertUnique_of_mem (l : List Int) (v w : Int) (h : w ∈ l) :
    w ∈ insertUnique l v := by
  unfold insertUnique
  split
  · exact h
  · simp [h]

theorem edgeFold_mem_mono (f g : Placement → Int) (ps : List Placement) (acc : List Int)
    (w : Int) (h : w ∈ acc) :
    w ∈ ps.foldl (fun acc r => insertUnique (insertUnique acc (f r)) (g r)) acc := by
  induction ps generalizing acc with
  | nil => exact h
  | cons q ps ih =>
      exact ih _ (mem_insertUnique_of_mem _ _ _ (mem_insertUnique_of_mem _ _ _ h))

theorem edgeFold_mem (f g : Placement → Int) (ps : List Placement) (acc : List Int)
    (p : Placement) (hp : p ∈ ps) :
    f p ∈ ps.foldl (fun acc r => insertUnique (insertUnique acc (f r)) (g r)) acc ∧
      g p ∈ ps.foldl (fun acc r => insertUnique (insertUnique acc (f r)) (g r)) acc := by
  induction ps generalizing acc with
  | nil => cases hp
  | cons q ps ih =>
      rcases List.mem_cons.mp hp with rfl | hp
      · constructor
        · exact edgeFold_mem_mono f g ps _ _
            (mem_insertUnique_of_mem _ _ _ (mem_insertUnique_self _ _))
        · exact edgeFold_mem_mono f g ps _ _ (mem_insertUnique_self _ _)
      · exact ih _ hp

theorem getCandidatePositions_mem_x (ps : List Placement) (p : Placement) (hp : p ∈ ps) :
    p.x ∈ (getCandidatePositions ps).1 ∧ p.x + p.width ∈ (getCandidatePositions ps).1 :=
  edgeFold_mem (fun r => r.x) (fun r => r.x + r.width) ps [] p hp

theorem getCandidatePositions_mem_y (ps : List Placement) (p : Placement) (hp : p ∈ ps) :
    p.y ∈ (getCandidatePositions ps).2 ∧ p.y + p.height ∈ (getCandidatePositions ps).2 :=
  edgeFold_mem (fun r => r.y) (fun r => r.y + r.height) ps [] p hp

/-! ### The search loop of `findBestPlacement` as a fold over survivors -/

/-- The update applied to a surviving candidate: keep it when its score is
strictly better than the best so far. -/
def updateBest (b : Bounds) (r : Rectangle) (s : SearchState) (c : Int × Int) : SearchState :=
  let sc := scoreOf b r c.1 c.2
  if lexLT sc (stateScore s) then ⟨c.1, c.2, sc.1, sc.2, true⟩ else s

/-- Running the search loop over a list of surviving candidates. -/
def runBest (b : Bounds) (r : Rectangle) (s : SearchState) (S : List (Int × Int)) :
    SearchState :=
  S.foldl (updateBest b r) s

theorem foldl_nested_eq_pairs (f : SearchState → Int → Int → SearchState)
    (xC yC : List Int) (s : SearchState) :
    xC.foldl (fun s cx => yC.foldl (fun s cy => f s cx cy) s) s =
      (candidatePairs xC yC).foldl (fun s c => f s c.1 c.2) s := by
  induction xC generalizing s with
  | nil => rfl
  | cons cx xC ih =>
      rw [List.foldl_cons, ih]
      unfold candidatePairs
      rw [List.flatMap_cons, List.foldl_append, List.foldl_map]

theorem foldl_consider_eq_survivors (b : Bounds) (r : Rectangle) (ps : List Placement)
    (L : List (Int × Int)) (s : SearchState) :
    L.foldl (fun s c => considerCandidate b r ps s c.1 c.2) s =
      (L.filter (fun c => !hasIntersection ⟨0, c.1, c.2, r.width, r.height⟩ ps)).foldl
        (updateBest b r) s := by
  induction L generalizing s with
  | nil => rfl
  | cons c L ih =>
      rw [List.foldl_cons]
      by_cases hi : hasIntersection ⟨0, c.1, c.2, r.width, r.height⟩ ps = true
      · rw [show considerCandidate b r ps s c.1 c.2 = s by
          unfold considerCandidate; rw [if_pos hi]]
        rw [ih, List.filter_cons]
        simp [hi]
      · rw [show considerCandidate b r ps s c.1 c.2 = updateBest b r s c by
          unfold considerCandidate updateBest; rw [if_neg hi]]
        rw [ih, List.filter_cons]
        simp only [Bool.not_eq_true] at hi
        simp [hi]

theorem findBestPlacement_eq_runBest (xC yC : List Int) (b : Bounds) (r : Rectangle)
    (ps : List Placement) :
    findBestPlacement xC yC b r ps =
      ((runBest b r ⟨0, 0, maxInt64, maxInt64, false⟩ (survivors xC yC r ps)).bestX,
       (runBest b r ⟨0, 0, maxInt64, maxInt64, false⟩ (survivors xC yC r ps)).bestY,
       (runBest b r ⟨0, 0, maxInt64, maxInt64, false⟩ (survivors xC yC r ps)).found) := by
  unfold findBestPlacement runBest survivors
  rw [foldl_nested_eq_pairs (considerCandidate b r ps),
    foldl_consider_eq_survivors b r ps]

theorem runBest_score_le_init (b : Bounds) (r : Rectangle) (S : List (Int × Int))
    (s : SearchState) : lexLE (stateScore (runBest b r s S)) (stateScore s) := by
  induction S generalizing s with
  | nil => exact lexLE_refl _
  | cons c S ih =>
      rw [runBest, List.foldl_cons]
      by_cases h : lexLT (scoreOf b r c.1 c.2) (stateScore s)
      · rw [show updateBest b r s c = ⟨c.1, c.2, (scoreOf b r c.1 c.2).1,
            (scoreOf b r c.1 c.2).2, true⟩ by unfold updateBest; rw [if_pos h]]
        exact lexLE_trans (ih _) (lexLE_of_lexLT h)
      · rw [show updateBest b r s c = s by unfold updateBest; rw [if_neg h]]
        exact ih s

theorem runBest_score_le_mem (b : Bounds) (r : Rectangle) (S : List (Int × Int))
    (s : SearchState) (c : Int × Int) (hc : c ∈ S) :
    lexLE (stateScore (runBest b r s S)) (scoreOf b r c.1 c.2) := by
  induction S generalizing s with
  | nil => cases hc
  | cons q S ih =>
      rw [runBest, List.foldl_cons]
      rcases List.mem_cons.mp hc with rfl | hc
      · by_cases h : lexLT (scoreOf b r c.1 c.2) (stateScore s)
        · rw [show updateBest b r s c = ⟨c.1, c.2, (scoreOf b r c.1 c.2).1,
              (scoreOf b r c.1 c.2).2, true⟩ by unfold updateBest; rw [if_pos h]]
          exact runBest_score_le_init b r S _
        · rw [show updateBest b r s c = s by unfold updateBest; rw [if_neg h]]
          exact lexLE_trans (runBest_score_le_init b r S s) (lexLE_of_not_lexLT h)
      · exact ih _ hc

theorem runBest_cases (b : Bounds) (r : Rectangle) (S : List (Int × Int))
    (s : SearchState) :
    runBest b r s S = s ∨ ∃ c ∈ S, runBest b r s S =
      ⟨c.1, c.2, (scoreOf b r c.1 c.2).1, (scoreOf b r c.1 c.2).2, true⟩ := by
  induction S generalizing s with
  | nil => exact Or.inl rfl
  | cons q S ih =>
      rw [runBest, List.foldl_cons]
      by_cases h : lexLT (scoreOf b r q.1 q.2) (stateScore s)
      · rw [show updateBest b r s q = ⟨q.1, q.2, (scoreOf b r q.1 q.2).1,
            (scoreOf b r q.1 q.2).2, true⟩ by unfold updateBest; rw [if_pos h]]
        rcases ih ⟨q.1, q.2, (scoreOf b r q.1 q.2).1, (scoreOf b r q.1 q.2).2, true⟩ with
          h2 | ⟨c, hc, h2⟩
        · exact Or.inr ⟨q, List.mem_cons_self q S, h2⟩
        · exact Or.inr ⟨c, List.mem_cons_of_mem q hc, h2⟩
      · rw [show updateBest b r s q = s by unfold updateBest; rw [if_neg h]]
        rcases ih s with h2 | ⟨c, hc, h2⟩
        · exact Or.inl h2
        · exact Or.inr ⟨c, List.mem_cons_of_mem q hc, h2⟩

theorem runBest_found_mono (b : Bounds) (r : Rectangle) (S : List (Int × Int))
    (s : SearchState) (h : s.found = true) : (runBest b r s S).found = true := by
  induction S generalizing s with
  | nil => exact h
  | cons q S ih =>
      rw [runBest, List.foldl_cons]
      by_cases hq : lexLT (scoreOf b r q.1 q.2) (stateScore s)
      · rw [show updateBest b r s q = ⟨q.1, q.2, (scoreOf b r q.1 q.2).1,
            (scoreOf b r q.1 q.2).2, true⟩ by unfold updateBest; rw [if_pos hq]]
        exact ih _ rfl
      · rw [show updateBest b r s q = s by unfold updateBest; rw [if_neg hq]]
        exact ih s h

theorem runBest_found_of_exists (b : Bounds) (r : Rectangle) (S : List (Int × Int))
    (s : SearchState) (h : ∃ c ∈ S, lexLT (scoreOf b r c.1 c.2) (stateScore s)) :
    (runBest b r s S).found = true := by
  induction S generalizing s with
  | nil => rcases h with ⟨c, hc, _⟩; cases hc
  | cons q S ih =>
      rw [runBest, List.foldl_cons]
      by_cases hq : lexLT (scoreOf b r q.1 q.2) (stateScore s)
      · rw [show updateBest b r s q = ⟨q.1, q.2, (scoreOf b r q.1 q.2).1,
            (scoreOf b r q.1 q.2).2, true⟩ by unfold updateBest; rw [if_pos hq]]
        exact runBest_found_mono b r S _ rfl
      · rw [show updateBest b r s q = s by unfold updateBest; rw [if_neg hq]]
        rcases h with ⟨c, hc, hlt⟩
        rcases List.mem_cons.mp hc with rfl | hc
        · exact absurd hlt hq
        · exact ih s ⟨c, hc, hlt⟩

theorem runBest_cons_pos (b : Bounds) (r : Rectangle) (S : List (Int × Int))
    (s : SearchState) (q : Int × Int) (hq : lexLT (scoreOf b r q.1 q.2) (stateScore s)) :
    runBest b r s (q :: S) = runBest b r ⟨q.1, q.2, (scoreOf b r q.1 q.2).1,
      (scoreOf b r q.1 q.2).2, true⟩ S := by
  rw [runBest, List.foldl_cons,
    show updateBest b r s q = ⟨q.1, q.2, (scoreOf b r q.1 q.2).1,
      (scoreOf b r q.1 q.2).2, true⟩ by unfold updateBest; rw [if_pos hq]]
  rfl

theorem runBest_cons_neg (b : Bounds) (r : Rectangle) (S : List (Int × Int))
    (s : SearchState) (q : Int × Int) (hq : ¬ lexLT (scoreOf b r q.1 q.2) (stateScore s)) :
    runBest b r s (q :: S) = runBest b r s S := by
  rw [runBest, List.foldl_cons,
    show updateBest b r s q = s by unfold updateBest; rw [if_neg hq]]
  rfl

theorem runBest_eq_of_score_eq (b : Bounds) (r : Rectangle) (S : List (Int × Int))
    (s : SearchState) (h : stateScore (runBest b r s S) = stateScore s) :
    runBest b r s S = s := by
  induction S generalizing s with
  | nil => rfl
  | cons q S ih =>
      by_cases hq : lexLT (scoreOf b r q.1 q.2) (stateScore s)
      · rw [runBest_cons_pos b r S s q hq] at h
        have hle := runBest_score_le_init b r S
          ⟨q.1, q.2, (scoreOf b r q.1 q.2).1, (scoreOf b r q.1 q.2).2, true⟩
        have hlt : lexLT (stateScore (runBest b r ⟨q.1, q.2, (scoreOf b r q.1 q.2).1,
            (scoreOf b r q.1 q.2).2, true⟩ S)) (stateScore s) :=
          lexLT_of_lexLE_of_lexLT (by simpa [stateScore] using hle) hq
        rw [h] at hlt
        exact absurd hlt (lexLT_irrefl _)
      · rw [runBest_cons_neg b r S s q hq] at h ⊢
        exact ih s h

theorem runBest_find_first (b : Bounds) (r : Rectangle) (S : List (Int × Int))
    (s : SearchState) (h : lexLT (stateScore (runBest b r s S)) (stateScore s)) :
    S.find? (fun c => decide (scoreOf b r c.1 c.2 = stateScore (runBest b r s S))) =
      some ((runBest b r s S).bestX, (runBest b r s S).bestY) := by
  induction S generalizing s with
  | nil => exact absurd h (lexLT_irrefl _)
  | cons q S ih =>
      by_cases hq : lexLT (scoreOf b r q.1 q.2) (stateScore s)
      · have hstep := runBest_cons_pos b r S s q hq
        have hle := runBest_score_le_init b r S
          ⟨q.1, q.2, (scoreOf b r q.1 q.2).1, (scoreOf b r q.1 q.2).2, true⟩
        have hle' : lexLE (stateScore (runBest b r s (q :: S))) (scoreOf b r q.1 q.2) := by
          rw [hstep]; simpa [stateScore] using hle
        rcases hle' with hlt | heq
        · have hfind := ih ⟨q.1, q.2, (scoreOf b r q.1 q.2).1,
            (scoreOf b r q.1 q.2).2, true⟩
            (by rw [hstep] at hlt; simpa [stateScore] using hlt)
          rw [← hstep] at hfind
          rw [List.find?_cons_of_neg, hfind]
          simp only [decide_eq_true_eq]
          intro hcontra
          rw [hcontra] at hlt
          exact absurd hlt (lexLT_irrefl _)
        · have hid : runBest b r ⟨q.1, q.2, (scoreOf b r q.1 q.2).1,
              (scoreOf b r q.1 q.2).2, true⟩ S = ⟨q.1, q.2, (scoreOf b r q.1 q.2).1,
              (scoreOf b r q.1 q.2).2, true⟩ := by
            apply runBest_eq_of_score_eq
            rw [← hstep, heq]
            simp [stateScore]
          rw [hstep, hid]
          rw [List.find?_cons_of_pos]
          simp [stateScore]
      · have hstep := runBest_cons_neg b r S s q hq
        rw [hstep] at h ⊢
        rw [List.find?_cons_of_neg, ih s h]
        simp only [decide_eq_true_eq]
        intro hcontra
        exact hq (by rw [hcontra]; exact h)

/-! ### Structural lemmas about the placement loop -/

theorem packStepWith_eq_append (ordFn : List Placement → List Int × List Int)
    (rects : List Rectangle) (q : Placement) (t : List Placement) (pos : Nat) :
    packStepWith ordFn rects (q :: t) pos = (q :: t) ++
      [⟨pos,
        (if (findBestPlacement (ordFn (q :: t)).1 (ordFn (q :: t)).2 (computeBounds (q :: t))
              (rectAt rects pos) (q :: t)).2.2 then
            ((findBestPlacement (ordFn (q :: t)).1 (ordFn (q :: t)).2 (computeBounds (q :: t))
              (rectAt rects pos) (q :: t)).1,
             (findBestPlacement (ordFn (q :: t)).1 (ordFn (q :: t)).2 (computeBounds (q :: t))
              (rectAt rects pos) (q :: t)).2.1)
          else ((computeBounds (q :: t)).maxX, (computeBounds (q :: t)).minY)).1,
        (if (findBestPlacement (ordFn (q :: t)).1 (ordFn (q :: t)).2 (computeBounds (q :: t))
              (rectAt rects pos) (q :: t)).2.2 then
            ((findBestPlacement (ordFn (q :: t)).1 (ordFn (q :: t)).2 (computeBounds (q :: t))
              (rectAt rects pos) (q :: t)).1,
             (findBestPlacement (ordFn (q :: t)).1 (ordFn (q :: t)).2 (computeBounds (q :: t))
              (rectAt rects pos) (q :: t)).2.1)
          else ((computeBounds (q :: t)).maxX, (computeBounds (q :: t)).minY)).2,
        (rectAt rects pos).width, (rectAt rects pos).height⟩] := rfl

theorem packStepWith_map_position (ordFn : List Placement → List Int × List Int)
    (rects : List Rectangle) (ps : List Placement) (pos : Nat) :
    (packStepWith ordFn rects ps pos).map (fun pl => pl.position) =
      ps.map (fun pl => pl.position) ++ [pos] := by
  cases ps with
  | nil => rfl
  | cons q t => rw [packStepWith_eq_append]; simp

theorem packFold_map_position (ordFn : List Placement → List Int × List Int)
    (rects : List Rectangle) (l : List Nat) (ps : List Placement) :
    ((l.foldl (packStepWith ordFn rects) ps).map (fun pl => pl.position)) =
      ps.map (fun pl => pl.position) ++ l := by
  induction l generalizing ps with
  | nil => simp
  | cons pos l ih =>
      rw [List.foldl_cons, ih, packStepWith_map_position]
      simp

theorem packPlacementsAux_map_position (ordFn : List Placement → List Int × List Int)
    (rects : List Rectangle) :
    (packPlacementsAux ordFn rects).map (fun pl => pl.position) = sortedPositions rects := by
  unfold packPlacementsAux
  rw [packFold_map_position]
  simp

theorem sortedPositions_perm (rects : List Rectangle) :
    (sortedPositions rects).Perm (List.range rects.length) :=
  List.perm_insertionSort _ _

theorem packPlacementsAux_length (ordFn : List Placement → List Int × List Int)
    (rects : List Rectangle) : (packPlacementsAux ordFn rects).length = rects.length := by
  have h := congrArg List.length (packPlacementsAux_map_position ordFn rects)
  rw [List.length_map] at h
  rw [h, (sortedPositions_perm rects).length_eq, List.length_range]

theorem packPlacementsAux_ne_nil (ordFn : List Placement → List Int × List Int)
    (rects : List Rectangle) (h : rects ≠ []) : packPlacementsAux ordFn rects ≠ [] := by
  intro hcontra
  have := packPlacementsAux_length ordFn rects
  rw [hcontra] at this
  simp only [List.length_nil] at this
  exact h (List.eq_nil_of_length_eq_zero this.symm)

theorem packFold_dims (ordFn : List Placement → List Int × List Int)
    (rects : List Rectangle) (l : List Nat) (ps : List Placement)
    (h : ∀ pl ∈ ps, pl.width = (rectAt rects pl.position).width ∧
      pl.height = (rectAt rects pl.position).height) :
    ∀ pl ∈ l.foldl (packStepWith ordFn rects) ps,
      pl.width = (rectAt rects pl.position).width ∧
        pl.height = (rectAt rects pl.position).height := by
  induction l generalizing ps with
  | nil => exact h
  | cons pos l ih =>
      rw [List.foldl_cons]
      apply ih
      cases ps with
      | nil =>
          intro pl hpl
          rw [show packStepWith ordFn rects [] pos =
            [⟨pos, 0, 0, (rectAt rects pos).width, (rectAt rects pos).height⟩] from rfl] at hpl
          rcases List.mem_singleton.mp hpl with rfl
          exact ⟨rfl, rfl⟩
      | cons q t =>
          intro pl hpl
          rw [packStepWith_eq_append] at hpl
          rcases List.mem_append.mp hpl with hpl | hpl
          · exact h pl hpl
          · rcases List.mem_singleton.mp hpl with rfl
            exact ⟨rfl, rfl⟩

theorem packFold_head (ordFn : List Placement → List Int × List Int)
    (rects : List Rectangle) (l : List Nat) (q : Placement) (t : List Placement) :
    ∃ rest, l.foldl (packStepWith ordFn rects) (q :: t) = q :: rest := by
  induction l generalizing t with
  | nil => exact ⟨t, rfl⟩
  | cons pos l ih =>
      rw [List.foldl_cons, packStepWith_eq_append]
      exact ih _

/-- The head of the unnormalized placement list: the first rectangle in sorted
order, seeded at `(0, 0)`. -/
theorem packPlacementsAux_head (ordFn : List Placement → List Int × List Int)
    (rects : List Rectangle) (pos0 : Nat) (l : List Nat)
    (hsort : sortedPositions rects = pos0 :: l) :
    ∃ rest, packPlacementsAux ordFn rects =
      ⟨pos0, 0, 0, (rectAt rects pos0).width, (rectAt rects pos0).height⟩ :: rest := by
  unfold packPlacementsAux
  rw [hsort, List.foldl_cons]
  exact packFold_head ordFn rects l _ []

/-! ### The non-overlap invariant -/

/-- No two placements in the list overlap (per the code's own test). -/
def NoOverlap (ps : List Placement) : Prop :=
  ps.Pairwise (fun a b => doRectanglesIntersect a b = false)

theorem noOverlap_append_single (ps : List Placement) (nw : Placement)
    (h : NoOverlap ps) (hnw : ∀ a ∈ ps, doRectanglesIntersect a nw = false) :
    NoOverlap (ps ++ [nw]) := by
  unfold NoOverlap at *
  rw [List.pairwise_append]
  refine ⟨h, List.pairwise_singleton _ _, ?_⟩
  intro a ha b hb
  rcases List.mem_singleton.mp hb with rfl
  exact hnw a ha

/-- When `findBestPlacement` reports success, the returned coordinates are a
surviving candidate: they do not intersect any existing placement. -/
theorem findBestPlacement_found_no_intersect (xC yC : List Int) (b : Bounds)
    (r : Rectangle) (ps : List Placement)
    (hfound : (findBestPlacement xC yC b r ps).2.2 = true) :
    hasIntersection ⟨0, (findBestPlacement xC yC b r ps).1,
      (findBestPlacement xC yC b r ps).2.1, r.width, r.height⟩ ps = false := by
  rw [findBestPlacement_eq_runBest] at hfound ⊢
  rcases runBest_cases b r (survivors xC yC r ps) ⟨0, 0, maxInt64, maxInt64, false⟩ with
    hcase | ⟨c, hc, hcase⟩
  · rw [hcase] at hfound
    cases hfound
  · rw [hcase]
    have := List.of_mem_filter hc
    simp only [Bool.not_eq_true'] at this
    exact this

/-- When `findBestPlacement` reports failure, the returned coordinates are
also a member of the survivor characterization (trivially irrelevant); what
matters for the fallback is handled separately. -/
theorem packStepWith_noOverlap (ordFn : List Placement → List Int × List Int)
    (rects : List Rectangle) (ps : List Placement) (pos : Nat)
    (h : NoOverlap ps) : NoOverlap (packStepWith ordFn rects ps pos) := by
  cases ps with
  | nil =>
      rw [show packStepWith ordFn rects [] pos =
        [⟨pos, 0, 0, (rectAt rects pos).width, (rectAt rects pos).height⟩] from rfl]
      exact List.pairwise_singleton _ _
  | cons q t =>
      rw [packStepWith_eq_append]
      apply noOverlap_append_single _ _ h
      intro a ha
      by_cases hfound : (findBestPlacement (ordFn (q :: t)).1 (ordFn (q :: t)).2
          (computeBounds (q :: t)) (rectAt rects pos) (q :: t)).2.2 = true
      · rw [if_pos hfound]
        have hni := findBestPlacement_found_no_intersect (ordFn (q :: t)).1 (ordFn (q :: t)).2
          (computeBounds (q :: t)) (rectAt rects pos) (q :: t) hfound
        rw [hasIntersection_eq_false_iff] at hni
        rw [doRectanglesIntersect_symm]
        rw [show (⟨pos, (findBestPlacement (ordFn (q :: t)).1 (ordFn (q :: t)).2
            (computeBounds (q :: t)) (rectAt rects pos) (q :: t)).1,
            (findBestPlacement (ordFn (q :: t)).1 (ordFn (q :: t)).2 (computeBounds (q :: t))
              (rectAt rects pos) (q :: t)).2.1,
            (rectAt rects pos).width, (rectAt rects pos).height⟩ : Placement) =
          ⟨pos, (findBestPlacement (ordFn (q :: t)).1 (ordFn (q :: t)).2
            (computeBounds (q :: t)) (rectAt rects pos) (q :: t)).1,
            (findBestPlacement (ordFn (q :: t)).1 (ordFn (q :: t)).2 (computeBounds (q :: t))
              (rectAt rects pos) (q :: t)).2.1,
            (rectAt rects pos).width, (rectAt rects pos).height⟩ from rfl]
        rw [doRectanglesIntersect_position_irrel]
        exact hni a ha
      · rw [if_neg hfound]
        rw [doRectanglesIntersect_symm]
        apply doRectanglesIntersect_false_of_right_of
        exact computeBounds_le_maxX (q :: t) a ha

theorem packFold_noOverlap (ordFn : List Placement → List Int × List Int)
    (rects : List Rectangle) (l : List Nat) (ps : List Placement)
    (h : NoOverlap ps) : NoOverlap (l.foldl (packStepWith ordFn rects) ps) := by
  induction l generalizing ps with
  | nil => exact h
  | cons pos l ih =>
      rw [List.foldl_cons]
      exact ih _ (packStepWith_noOverlap ordFn rects ps pos h)

theorem packPlacementsAux_noOverlap (ordFn : List Placement → List Int × List Int)
    (rects : List Rectangle) : NoOverlap (packPlacementsAux ordFn rects) :=
  packFold_noOverlap ordFn rects _ [] List.Pairwise.nil

/-- The final, shifted write-back list also satisfies the no-overlap
invariant: translation by a constant vector preserves the intersection
test. -/
theorem packAux_noOverlap (ordFn : List Placement → List Int × List Int)
    (rects : List Rectangle) : NoOverlap (packAux ordFn rects).2 := by
  cases rects with
  | nil => exact List.Pairwise.nil
  | cons r0 rs =>
      show NoOverlap (((packPlacementsAux ordFn (r0 :: rs)).map
        (fun pl => { pl with
          x := pl.x - (computeBounds (packPlacementsAux ordFn (r0 :: rs))).minX,
          y := pl.y - (computeBounds (packPlacementsAux ordFn (r0 :: rs))).minY })))
      apply List.Pairwise.map
      · intro a c hac
        rw [show ({ a with
            x := a.x - (computeBounds (packPlacementsAux ordFn (r0 :: rs))).minX,
            y := a.y - (computeBounds (packPlacementsAux ordFn (r0 :: rs))).minY } : Placement) =
          ⟨a.position, a.x - (computeBounds (packPlacementsAux ordFn (r0 :: rs))).minX,
            a.y - (computeBounds (packPlacementsAux ordFn (r0 :: rs))).minY,
            a.width, a.height⟩ from rfl]
        rw [show ({ c with
            x := c.x - (computeBounds (packPlacementsAux ordFn (r0 :: rs))).minX,
            y := c.y - (computeBounds (packPlacementsAux ordFn (r0 :: rs))).minY } : Placement) =
          ⟨c.position, c.x - (computeBounds (packPlacementsAux ordFn (r0 :: rs))).minX,
            c.y - (computeBounds (packPlacementsAux ordFn (r0 :: rs))).minY,
            c.width, c.height⟩ from rfl]
        rw [doRectanglesIntersect_shift]
        exact hac
      · exact packPlacementsAux_noOverlap ordFn (r0 :: rs)

/-- `packAux` on a nonempty input, unfolded. -/
theorem packAux_cons (ordFn : List Placement → List Int × List Int)
    (r0 : Rectangle) (rs : List Rectangle) :
    packAux ordFn (r0 :: rs) =
      (((computeBounds (packPlacementsAux ordFn (r0 :: rs))).maxX -
          (computeBounds (packPlacementsAux ordFn (r0 :: rs))).minX,
        (computeBounds (packPlacementsAux ordFn (r0 :: rs))).maxY -
          (computeBounds (packPlacementsAux ordFn (r0 :: rs))).minY),
       (packPlacementsAux ordFn (r0 :: rs)).map
         (fun pl => { pl with
            x := pl.x - (computeBounds (packPlacementsAux ordFn (r0 :: rs))).minX,
            y := pl.y - (computeBounds (packPlacementsAux ordFn (r0 :: rs))).minY })) := rfl

/-! ### Claim theorems -/

/-- Claim C1: for every input collection of rectangles with non-negative
dimensions, the placements recorded by `Pack` are pairwise non-overlapping
under the half-open overlap test: for all distinct indices `i`, `j` into the
write-back list, the two recorded rectangles do not intersect (edge-touching
is not overlap). -/
theorem pack_no_overlap (rects : List Rectangle)
    (_hdims : ∀ r ∈ rects, 0 ≤ r.width ∧ 0 ≤ r.height)
    (i j : Nat) (hi : i < (Pack rects).2.length) (hj : j < (Pack rects).2.length)
    (hij : i ≠ j) :
    doRectanglesIntersect ((Pack rects).2.get ⟨i, hi⟩) ((Pack rects).2.get ⟨j, hj⟩) = false := by
  have hpw : NoOverlap (Pack rects).2 := packAux_noOverlap getCandidatePositions rects
  rw [NoOverlap, List.pairwise_iff_getElem] at hpw
  rcases Nat.lt_or_ge i j with hlt | hge
  · have := hpw i j hi hj hlt
    simpa using this
  · have hlt : j < i := Nat.lt_of_le_of_ne hge (Ne.symm hij)
    have := hpw j i hj hi hlt
    rw [doRectanglesIntersect_symm]
    simpa using this

/-- Witness for C1 at a concrete input. -/
theorem pack_no_overlap_witness :
    (∀ r ∈ ([⟨2, 2⟩, ⟨1, 1⟩] : List Rectangle), 0 ≤ r.width ∧ 0 ≤ r.height) ∧
      (0 : Nat) ≠ 1 ∧
      doRectanglesIntersect ((Pack [⟨2, 2⟩, ⟨1, 1⟩]).2.get ⟨0, by decide⟩)
        ((Pack [⟨2, 2⟩, ⟨1, 1⟩]).2.get ⟨1, by decide⟩) = false :=
  ⟨by decide, by decide,
    pack_no_overlap [⟨2, 2⟩, ⟨1, 1⟩] (by decide) 0 1 (by decide) (by decide) (by decide)⟩

/-- Claim C2: for every non-empty input, `Pack` issues exactly one write-back
per index `0..count-1` (the recorded positions are a permutation of
`range count`) before returning, and every recorded `x` and `y` is
non-negative. -/
theorem pack_place_once_nonneg (rects : List Rectangle) (h : rects ≠ []) :
    ((Pack rects).2.map (fun pl => pl.position)).Perm (List.range rects.length) ∧
      ∀ pl ∈ (Pack rects).2, 0 ≤ pl.x ∧ 0 ≤ pl.y := by
  cases rects with
  | nil => exact absurd rfl h
  | cons r0 rs =>
      rw [Pack, packAux_cons]
      constructor
      · rw [List.map_map]
        show ((packPlacementsAux getCandidatePositions (r0 :: rs)).map
          (fun pl => pl.position)).Perm (List.range (r0 :: rs).length)
        rw [packPlacementsAux_map_position]
        exact sortedPositions_perm (r0 :: rs)
      · intro pl hpl
        rcases List.mem_map.mp hpl with ⟨p, hp, rfl⟩
        constructor
        · have := computeBounds_minX_le (packPlacementsAux getCandidatePositions (r0 :: rs)) p hp
          dsimp only
          omega
        · have := computeBounds_minY_le (packPlacementsAux getCandidatePositions (r0 :: rs)) p hp
          dsimp only
          omega

/-- Witness for C2 at a concrete input. -/
theorem pack_place_once_nonneg_witness :
    ([⟨100, 200⟩, ⟨50, 50⟩] : List Rectangle) ≠ [] ∧
      (((Pack [⟨100, 200⟩, ⟨50, 50⟩]).2.map (fun pl => pl.position)).Perm
          (List.range ([⟨100, 200⟩, ⟨50, 50⟩] : List Rectangle).length) ∧
        ∀ pl ∈ (Pack [⟨100, 200⟩, ⟨50, 50⟩]).2, 0 ≤ pl.x ∧ 0 ≤ pl.y) :=
  ⟨by decide, pack_place_once_nonneg [⟨100, 200⟩, ⟨50, 50⟩] (by decide)⟩

/-- Claim C3: for every non-empty input, the pair returned by `Pack` is
exactly the tight bounding box of the recorded placements: the minimum
recorded `x` is `0`, every `x + width` is at most the returned width, which
is attained, and symmetrically in `y`. -/
theorem pack_tight_bounds (rects : List Rectangle) (h : rects ≠ []) :
    (∀ pl ∈ (Pack rects).2, 0 ≤ pl.x ∧ pl.x + pl.width ≤ (Pack rects).1.1) ∧
      (∃ pl ∈ (Pack rects).2, pl.x = 0) ∧
      (∃ pl ∈ (Pack rects).2, pl.x + pl.width = (Pack rects).1.1) ∧
      (∀ pl ∈ (Pack rects).2, 0 ≤ pl.y ∧ pl.y + pl.height ≤ (Pack rects).1.2) ∧
      (∃ pl ∈ (Pack rects).2, pl.y = 0) ∧
      (∃ pl ∈ (Pack rects).2, pl.y + pl.height = (Pack rects).1.2) := by
  cases rects with
  | nil => exact absurd rfl h
  | cons r0 rs =>
      have hne := packPlacementsAux_ne_nil getCandidatePositions (r0 :: rs) h
      rw [Pack, packAux_cons]
      refine ⟨?_, ?_, ?_, ?_, ?_, ?_⟩
      · intro pl hpl
        rcases List.mem_map.mp hpl with ⟨p, hp, rfl⟩
        have h1 := computeBounds_minX_le (packPlacementsAux getCandidatePositions (r0 :: rs)) p hp
        have h2 := computeBounds_le_maxX (packPlacementsAux getCandidatePositions (r0 :: rs)) p hp
        dsimp only
        constructor <;> omega
      · rcases computeBounds_minX_attained (packPlacementsAux getCandidatePositions (r0 :: rs))
          hne with ⟨p, hp, hx⟩
        refine ⟨_, List.mem_map_of_mem _ hp, ?_⟩
        dsimp only
        omega
      · rcases computeBounds_maxX_attained (packPlacementsAux getCandidatePositions (r0 :: rs))
          hne with ⟨p, hp, hx⟩
        refine ⟨_, List.mem_map_of_mem _ hp, ?_⟩
        dsimp only
        omega
      · intro pl hpl
        rcases List.mem_map.mp hpl with ⟨p, hp, rfl⟩
        have h1 := computeBounds_minY_le (packPlacementsAux getCandidatePositions (r0 :: rs)) p hp
        have h2 := computeBounds_le_maxY (packPlacementsAux getCandidatePositions (r0 :: rs)) p hp
        dsimp only
        constructor <;> omega
      · rcases computeBounds_minY_attained (packPlacementsAux getCandidatePositions (r0 :: rs))
          hne with ⟨p, hp, hy⟩
        refine ⟨_, List.mem_map_of_mem _ hp, ?_⟩
        dsimp only
        omega
      · rcases computeBounds_maxY_attained (packPlacementsAux getCandidatePositions (r0 :: rs))
          hne with ⟨p, hp, hy⟩
        refine ⟨_, List.mem_map_of_mem _ hp, ?_⟩
        dsimp only
        omega

/-- Witness for C3 at a concrete input. -/
theorem pack_tight_bounds_witness :
    ([⟨100, 200⟩] : List Rectangle) ≠ [] ∧
      ((∀ pl ∈ (Pack [⟨100, 200⟩]).2, 0 ≤ pl.x ∧ pl.x + pl.width ≤ (Pack [⟨100, 200⟩]).1.1) ∧
        (∃ pl ∈ (Pack [⟨100, 200⟩]).2, pl.x = 0) ∧
        (∃ pl ∈ (Pack [⟨100, 200⟩]).2, pl.x + pl.width = (Pack [⟨100, 200⟩]).1.1) ∧
        (∀ pl ∈ (Pack [⟨100, 200⟩]).2, 0 ≤ pl.y ∧ pl.y + pl.height ≤ (Pack [⟨100, 200⟩]).1.2) ∧
        (∃ pl ∈ (Pack [⟨100, 200⟩]).2, pl.y = 0) ∧
        (∃ pl ∈ (Pack [⟨100, 200⟩]).2, pl.y + pl.height = (Pack [⟨100, 200⟩]).1.2)) :=
  ⟨by decide, pack_tight_bounds [⟨100, 200⟩] (by decide)⟩

/-- Claim C4: when the input collection is empty, `Pack` returns `(0, 0)`
and performs no write-back calls. -/
theorem pack_empty : Pack [] = ((0, 0), []) := rfl

/-- Claim C5: `Pack` processes rectangles in descending-area order: the
sorted index list is a permutation of `0..count-1`, pairwise sorted by
descending `width * height`, the placements are created in exactly that
order, and the first placement (a largest-area rectangle) sits at internal
coordinates `(0, 0)`. -/
theorem pack_sorted_descending (rects : List Rectangle) (h : rects ≠ []) :
    (sortedPositions rects).Perm (List.range rects.length) ∧
      (sortedPositions rects).Pairwise
        (fun i j => (rectAt rects j).area ≤ (rectAt rects i).area) ∧
      (packPlacements rects).map (fun pl => pl.position) = sortedPositions rects ∧
      ∃ p0 rest, packPlacements rects = p0 :: rest ∧ p0.x = 0 ∧ p0.y = 0 ∧
        ∀ i < rects.length, (rectAt rects i).area ≤ (rectAt rects p0.position).area := by
  have hperm := sortedPositions_perm rects
  have hsorted : (sortedPositions rects).Pairwise
      (fun i j => (rectAt rects j).area ≤ (rectAt rects i).area) := by
    haveI : IsTotal Nat (fun i j => (rectAt rects j).area ≤ (rectAt rects i).area) :=
      ⟨fun a b => le_total _ _⟩
    haveI : IsTrans Nat (fun i j => (rectAt rects j).area ≤ (rectAt rects i).area) :=
      ⟨fun _ _ _ hab hbc => le_trans hbc hab⟩
    exact List.sorted_insertionSort _ _
  obtain ⟨pos0, l, hsort⟩ : ∃ pos0 l, sortedPositions rects = pos0 :: l := by
    cases hs : sortedPositions rects with
    | nil =>
        exfalso
        have hlen := hperm.length_eq
        rw [hs, List.length_range] at hlen
        simp only [List.length_nil] at hlen
        exact h (List.eq_nil_of_length_eq_zero hlen.symm)
    | cons a l => exact ⟨a, l, rfl⟩
  obtain ⟨rest, hhead⟩ := packPlacementsAux_head getCandidatePositions rects pos0 l hsort
  refine ⟨hperm, hsorted, packPlacementsAux_map_position _ _, _, rest, hhead, rfl, rfl, ?_⟩
  intro i hi
  have hmem : i ∈ sortedPositions rects := hperm.mem_iff.mpr (List.mem_range.mpr hi)
  rw [hsort] at hmem hsorted
  rcases List.mem_cons.mp hmem with rfl | hmem
  · exact le_refl _
  · exact (List.pairwise_cons.mp hsorted).1 i hmem

/-- Witness for C5 at a concrete input. -/
theorem pack_sorted_descending_witness :
    ([⟨1, 1⟩, ⟨2, 2⟩] : List Rectangle) ≠ [] ∧
      ((sortedPositions [⟨1, 1⟩, ⟨2, 2⟩]).Perm
          (List.range ([⟨1, 1⟩, ⟨2, 2⟩] : List Rectangle).length) ∧
        (sortedPositions [⟨1, 1⟩, ⟨2, 2⟩]).Pairwise
          (fun i j => (rectAt [⟨1, 1⟩, ⟨2, 2⟩] j).area ≤ (rectAt [⟨1, 1⟩, ⟨2, 2⟩] i).area) ∧
        (packPlacements [⟨1, 1⟩, ⟨2, 2⟩]).map (fun pl => pl.position) =
          sortedPositions [⟨1, 1⟩, ⟨2, 2⟩] ∧
        ∃ p0 rest, packPlacements [⟨1, 1⟩, ⟨2, 2⟩] = p0 :: rest ∧ p0.x = 0 ∧ p0.y = 0 ∧
          ∀ i < ([⟨1, 1⟩, ⟨2, 2⟩] : List Rectangle).length,
            (rectAt [⟨1, 1⟩, ⟨2, 2⟩] i).area ≤ (rectAt [⟨1, 1⟩, ⟨2, 2⟩] p0.position).area) :=
  ⟨by decide, pack_sorted_descending [⟨1, 1⟩, ⟨2, 2⟩] (by decide)⟩

/-- Claim C6: among the candidate pairs that do not overlap any existing
placement (the `survivors`, in visiting order), `findBestPlacement` keeps the
candidate with the smallest resulting bounding-box area, ties broken by the
smallest squared center distance, and the first candidate with the best score
wins (later equal-score candidates do not replace it); when no candidate
survives it reports `found = false`.  The magnitude hypothesis keeps every
survivor's score below the `math.MaxInt64` sentinel. -/
theorem findBestPlacement_first_best (xC yC : List Int) (b : Bounds)
    (r : Rectangle) (ps : List Placement)
    (hA : ∀ c ∈ survivors xC yC r ps, (scoreOf b r c.1 c.2).1 < maxInt64) :
    (survivors xC yC r ps = [] → (findBestPlacement xC yC b r ps).2.2 = false) ∧
      (survivors xC yC r ps ≠ [] →
        (findBestPlacement xC yC b r ps).2.2 = true ∧
        ((findBestPlacement xC yC b r ps).1, (findBestPlacement xC yC b r ps).2.1) ∈
          survivors xC yC r ps ∧
        (∀ c ∈ survivors xC yC r ps,
          lexLE (scoreOf b r (findBestPlacement xC yC b r ps).1
              (findBestPlacement xC yC b r ps).2.1)
            (scoreOf b r c.1 c.2)) ∧
        (survivors xC yC r ps).find?
            (fun c => decide (scoreOf b r c.1 c.2 =
              scoreOf b r (findBestPlacement xC yC b r ps).1
                (findBestPlacement xC yC b r ps).2.1)) =
          some ((findBestPlacement xC yC b r ps).1, (findBestPlacement xC yC b r ps).2.1)) := by
  rw [findBestPlacement_eq_runBest]
  constructor
  · intro hnil
    rw [hnil]
    rfl
  · intro hne
    obtain ⟨c0, hc0⟩ := List.exists_mem_of_ne_nil _ hne
    have hc0lt : lexLT (scoreOf b r c0.1 c0.2)
        (stateScore ⟨0, 0, maxInt64, maxInt64, false⟩) := Or.inl (hA c0 hc0)
    have hfound : (runBest b r ⟨0, 0, maxInt64, maxInt64, false⟩
        (survivors xC yC r ps)).found = true :=
      runBest_found_of_exists b r _ _ ⟨c0, hc0, hc0lt⟩
    rcases runBest_cases b r (survivors xC yC r ps) ⟨0, 0, maxInt64, maxInt64, false⟩ with
      hcase | ⟨c, hc, hcase⟩
    · rw [hcase] at hfound
      cases hfound
    · have hscore : stateScore (runBest b r ⟨0, 0, maxInt64, maxInt64, false⟩
          (survivors xC yC r ps)) = scoreOf b r c.1 c.2 := by
        rw [hcase]; simp [stateScore]
      have hlt : lexLT (stateScore (runBest b r ⟨0, 0, maxInt64, maxInt64, false⟩
          (survivors xC yC r ps))) (stateScore ⟨0, 0, maxInt64, maxInt64, false⟩) := by
        rw [hscore]
        exact Or.inl (hA c hc)
      refine ⟨hfound, ?_, ?_, ?_⟩
      · rw [hcase]
        simpa using hc
      · intro c' hc'
        have hle := runBest_score_le_mem b r (survivors xC yC r ps)
          ⟨0, 0, maxInt64, maxInt64, false⟩ c' hc'
        rw [hscore] at hle
        rw [hcase]
        simpa using hle
      · have hfind := runBest_find_first b r (survivors xC yC r ps)
          ⟨0, 0, maxInt64, maxInt64, false⟩ hlt
        rw [hscore] at hfind
        rw [hcase] at hfind ⊢
        simpa using hfind

/-- Witness for C6 at a concrete input. -/
theorem findBestPlacement_first_best_witness :
    (∀ c ∈ survivors [0, 2] [0, 2] ⟨1, 1⟩ [⟨0, 0, 0, 2, 2⟩],
      (scoreOf ⟨0, 0, 2, 2⟩ ⟨1, 1⟩ c.1 c.2).1 < maxInt64) ∧
      ((survivors [0, 2] [0, 2] ⟨1, 1⟩ [⟨0, 0, 0, 2, 2⟩] = [] →
        (findBestPlacement [0, 2] [0, 2] ⟨0, 0, 2, 2⟩ ⟨1, 1⟩ [⟨0, 0, 0, 2, 2⟩]).2.2 = false) ∧
      (survivors [0, 2] [0, 2] ⟨1, 1⟩ [⟨0, 0, 0, 2, 2⟩] ≠ [] →
        (findBestPlacement [0, 2] [0, 2] ⟨0, 0, 2, 2⟩ ⟨1, 1⟩ [⟨0, 0, 0, 2, 2⟩]).2.2 = true ∧
        ((findBestPlacement [0, 2] [0, 2] ⟨0, 0, 2, 2⟩ ⟨1, 1⟩ [⟨0, 0, 0, 2, 2⟩]).1,
          (findBestPlacement [0, 2] [0, 2] ⟨0, 0, 2, 2⟩ ⟨1, 1⟩ [⟨0, 0, 0, 2, 2⟩]).2.1) ∈
            survivors [0, 2] [0, 2] ⟨1, 1⟩ [⟨0, 0, 0, 2, 2⟩] ∧
        (∀ c ∈ survivors [0, 2] [0, 2] ⟨1, 1⟩ [⟨0, 0, 0, 2, 2⟩],
          lexLE (scoreOf ⟨0, 0, 2, 2⟩ ⟨1, 1⟩
              (findBestPlacement [0, 2] [0, 2] ⟨0, 0, 2, 2⟩ ⟨1, 1⟩ [⟨0, 0, 0, 2, 2⟩]).1
              (findBestPlacement [0, 2] [0, 2] ⟨0, 0, 2, 2⟩ ⟨1, 1⟩ [⟨0, 0, 0, 2, 2⟩]).2.1)
            (scoreOf ⟨0, 0, 2, 2⟩ ⟨1, 1⟩ c.1 c.2)) ∧
        (survivors [0, 2] [0, 2] ⟨1, 1⟩ [⟨0, 0, 0, 2, 2⟩]).find?
            (fun c => decide (scoreOf ⟨0, 0, 2, 2⟩ ⟨1, 1⟩ c.1 c.2 =
              scoreOf ⟨0, 0, 2, 2⟩ ⟨1, 1⟩
                (findBestPlacement [0, 2] [0, 2] ⟨0, 0, 2, 2⟩ ⟨1, 1⟩ [⟨0, 0, 0, 2, 2⟩]).1
                (findBestPlacement [0, 2] [0, 2] ⟨0, 0, 2, 2⟩ ⟨1, 1⟩ [⟨0, 0, 0, 2, 2⟩]).2.1)) =
          some ((findBestPlacement [0, 2] [0, 2] ⟨0, 0, 2, 2⟩ ⟨1, 1⟩ [⟨0, 0, 0, 2, 2⟩]).1,
            (findBestPlacement [0, 2] [0, 2] ⟨0, 0, 2, 2⟩ ⟨1, 1⟩ [⟨0, 0, 0, 2, 2⟩]).2.1))) :=
  ⟨by decide, findBestPlacement_first_best [0, 2] [0, 2] ⟨0, 0, 2, 2⟩ ⟨1, 1⟩
    [⟨0, 0, 0, 2, 2⟩] (by decide)⟩

/-- Claim C10: for every non-empty placement list, the fallback pair
`(bounds.maxX, bounds.minY)` is among the candidate coordinates derived from
the placements, never intersects any existing placement, and (provided its
score stays below the `math.MaxInt64` sentinel) `findBestPlacement` on the
derived candidates always reports `found = true`, so the fallback branch of
`Pack` is unreachable. -/
theorem findBestPlacement_always_found (ps : List Placement) (r : Rectangle)
    (hne : ps ≠ [])
    (hA : (scoreOf (computeBounds ps) r (computeBounds ps).maxX
      (computeBounds ps).minY).1 < maxInt64) :
    (computeBounds ps).maxX ∈ (getCandidatePositions ps).1 ∧
      (computeBounds ps).minY ∈ (getCandidatePositions ps).2 ∧
      hasIntersection ⟨0, (computeBounds ps).maxX, (computeBounds ps).minY,
        r.width, r.height⟩ ps = false ∧
      (findBestPlacement (getCandidatePositions ps).1 (getCandidatePositions ps).2
        (computeBounds ps) r ps).2.2 = true := by
  have hmaxX : (computeBounds ps).maxX ∈ (getCandidatePositions ps).1 := by
    obtain ⟨p, hp, hpx⟩ := computeBounds_maxX_attained ps hne
    rw [hpx]
    exact (getCandidatePositions_mem_x ps p hp).2
  have hminY : (computeBounds ps).minY ∈ (getCandidatePositions ps).2 := by
    obtain ⟨p, hp, hpy⟩ := computeBounds_minY_attained ps hne
    rw [hpy]
    exact (getCandidatePositions_mem_y ps p hp).1
  have hnoint : hasIntersection ⟨0, (computeBounds ps).maxX, (computeBounds ps).minY,
      r.width, r.height⟩ ps = false := by
    rw [hasIntersection_eq_false_iff]
    intro q hq
    exact doRectanglesIntersect_false_of_right_of _ q (computeBounds_le_maxX ps q hq)
  refine ⟨hmaxX, hminY, hnoint, ?_⟩
  rw [findBestPlacement_eq_runBest]
  apply runBest_found_of_exists
  refine ⟨((computeBounds ps).maxX, (computeBounds ps).minY), ?_, Or.inl hA⟩
  rw [survivors, List.mem_filter]
  constructor
  · rw [candidatePairs, List.mem_flatMap]
    exact ⟨(computeBounds ps).maxX, hmaxX, List.mem_map_of_mem _ hminY⟩
  · rw [hnoint]
    rfl

/-- Witness for C10 at a concrete input. -/
theorem findBestPlacement_always_found_witness :
    ([⟨0, 0, 0, 2, 2⟩] : List Placement) ≠ [] ∧
      (scoreOf (computeBounds [⟨0, 0, 0, 2, 2⟩]) ⟨1, 1⟩
        (computeBounds [⟨0, 0, 0, 2, 2⟩]).maxX
        (computeBounds [⟨0, 0, 0, 2, 2⟩]).minY).1 < maxInt64 ∧
      ((computeBounds [⟨0, 0, 0, 2, 2⟩]).maxX ∈
          (getCandidatePositions [⟨0, 0, 0, 2, 2⟩]).1 ∧
        (computeBounds [⟨0, 0, 0, 2, 2⟩]).minY ∈
          (getCandidatePositions [⟨0, 0, 0, 2, 2⟩]).2 ∧
        hasIntersection ⟨0, (computeBounds [⟨0, 0, 0, 2, 2⟩]).maxX,
          (computeBounds [⟨0, 0, 0, 2, 2⟩]).minY, (1 : Int), (1 : Int)⟩
          [⟨0, 0, 0, 2, 2⟩] = false ∧
        (findBestPlacement (getCandidatePositions [⟨0, 0, 0, 2, 2⟩]).1
          (getCandidatePositions [⟨0, 0, 0, 2, 2⟩]).2
          (computeBounds [⟨0, 0, 0, 2, 2⟩]) ⟨1, 1⟩ [⟨0, 0, 0, 2, 2⟩]).2.2 = true) :=
  ⟨by decide, by decide,
    findBestPlacement_always_found [⟨0, 0, 0, 2, 2⟩] ⟨1, 1⟩ (by decide) (by decide)⟩

/-- Claim C7 counterexample: the claim reads the overlap test as "intervals
share at least one point" even for zero-size rectangles, but the code reports
an intersection for a zero-width rectangle strictly inside another although
its half-open x-interval `[1, 1)` is empty and shares no point with
`[0, 3)`. -/
theorem doRectanglesIntersect_zero_width_counterexample :
    doRectanglesIntersect ⟨0, 1, 1, 0, 2⟩ ⟨1, 0, 0, 3, 3⟩ = true ∧
      ¬ intervalsSharePoint 1 (1 + 0) 0 (0 + 3) := by
  constructor
  · decide
  · rintro ⟨t, ⟨h1, h2⟩, h3, h4⟩
    omega

/-- Claim C7 (amended): for rectangles with positive width and height, the
overlap test reports overlap if and only if the half-open x-intervals share
at least one point and the half-open y-intervals share at least one point, so
edge-touching is not overlap; for zero-width/height rectangles the test can
report overlap although the degenerate interval contains no point. -/
theorem doRectanglesIntersect_iff_share_point (a b : Placement)
    (haw : 0 < a.width) (hah : 0 < a.height) (hbw : 0 < b.width) (hbh : 0 < b.height) :
    doRectanglesIntersect a b = true ↔
      (intervalsSharePoint a.x (a.x + a.width) b.x (b.x + b.width) ∧
        intervalsSharePoint a.y (a.y + a.height) b.y (b.y + b.height)) := by
  unfold doRectanglesIntersect intervalsSharePoint
  constructor
  · intro h
    split_ifs at h with h1 h2
    push_neg at h1 h2
    refine ⟨?_, ?_⟩
    · rcases le_total a.x b.x with hx | hx
      · exact ⟨b.x, ⟨hx, by omega⟩, le_refl _, by omega⟩
      · exact ⟨a.x, ⟨le_refl _, by omega⟩, hx, by omega⟩
    · rcases le_total a.y b.y with hy | hy
      · exact ⟨b.y, ⟨hy, by omega⟩, le_refl _, by omega⟩
      · exact ⟨a.y, ⟨le_refl _, by omega⟩, hy, by omega⟩
  · rintro ⟨⟨tx, ⟨hx1, hx2⟩, hx3, hx4⟩, ⟨ty, ⟨hy1, hy2⟩, hy3, hy4⟩⟩
    split_ifs with h1 h2
    · exfalso
      rcases h1 with h1 | h1 <;> omega
    · exfalso
      rcases h2 with h2 | h2 <;> omega
    · rfl

/-- Witness for C7 (amended) at a concrete input. -/
theorem doRectanglesIntersect_iff_share_point_witness :
    (0 : Int) < 2 ∧
      (doRectanglesIntersect ⟨0, 0, 0, 2, 2⟩ ⟨1, 1, 1, 2, 2⟩ = true ↔
        (intervalsSharePoint 0 (0 + 2) 1 (1 + 2) ∧
          intervalsSharePoint 0 (0 + 2) 1 (1 + 2))) :=
  ⟨by decide,
    doRectanglesIntersect_iff_share_point ⟨0, 0, 0, 2, 2⟩ ⟨1, 1, 1, 2, 2⟩
      (by decide) (by decide) (by decide) (by decide)⟩

/-- Claim C8: when `findBestPlacement` reports `found = false`, the
placement loop of `Pack` places the rectangle at the fallback position
`(bounds.maxX, bounds.minY)` — the right edge of the current bounding box at
its current top — rather than failing. -/
theorem packStep_fallback (rects : List Rectangle) (ps : List Placement) (pos : Nat)
    (hne : ps ≠ [])
    (hnf : (findBestPlacement (getCandidatePositions ps).1 (getCandidatePositions ps).2
      (computeBounds ps) (rectAt rects pos) ps).2.2 = false) :
    packStepWith getCandidatePositions rects ps pos =
      ps ++ [⟨pos, (computeBounds ps).maxX, (computeBounds ps).minY,
        (rectAt rects pos).width, (rectAt rects pos).height⟩] := by
  cases ps with
  | nil => exact absurd rfl hne
  | cons q t =>
      rw [packStepWith_eq_append]
      simp [hnf]

/-- Witness for C8 at a concrete input: with one huge placed rectangle the
candidate scores exceed the `math.MaxInt64` sentinel, no candidate is kept
and the fallback placement is used. -/
theorem packStep_fallback_witness :
    ([⟨0, 0, 0, 4294967296, 4294967296⟩] : List Placement) ≠ [] ∧
      (findBestPlacement
        (getCandidatePositions [⟨0, 0, 0, 4294967296, 4294967296⟩]).1
        (getCandidatePositions [⟨0, 0, 0, 4294967296, 4294967296⟩]).2
        (computeBounds [⟨0, 0, 0, 4294967296, 4294967296⟩])
        (rectAt [⟨4294967296, 4294967296⟩, ⟨1, 1⟩] 1)
        [⟨0, 0, 0, 4294967296, 4294967296⟩]).2.2 = false ∧
      packStepWith getCandidatePositions [⟨4294967296, 4294967296⟩, ⟨1, 1⟩]
          [⟨0, 0, 0, 4294967296, 4294967296⟩] 1 =
        [⟨0, 0, 0, 4294967296, 4294967296⟩] ++
          [⟨1, (computeBounds [⟨0, 0, 0, 4294967296, 4294967296⟩]).maxX,
            (computeBounds [⟨0, 0, 0, 4294967296, 4294967296⟩]).minY,
            (rectAt [⟨4294967296, 4294967296⟩, ⟨1, 1⟩] 1).width,
            (rectAt [⟨4294967296, 4294967296⟩, ⟨1, 1⟩] 1).height⟩] :=
  ⟨by decide, by decide,
    packStep_fallback [⟨4294967296, 4294967296⟩, ⟨1, 1⟩]
      [⟨0, 0, 0, 4294967296, 4294967296⟩] 1 (by decide) (by decide)⟩

/-- The canonical candidate lists enumerated in reverse: another admissible
iteration order of the Go maps in `getCandidatePositions` (same distinct
edge coordinates, different enumeration order). -/
def revCandidatePositions (ps : List Placement) : List Int × List Int :=
  ((getCandidatePositions ps).1.reverse, (getCandidatePositions ps).2.reverse)

/-- `revCandidatePositions` enumerates exactly the same candidate sets as the
canonical order. -/
theorem revCandidatePositions_perm (ps : List Placement) :
    ((revCandidatePositions ps).1).Perm (getCandidatePositions ps).1 ∧
      ((revCandidatePositions ps).2).Perm (getCandidatePositions ps).2 :=
  ⟨List.reverse_perm _, List.reverse_perm _⟩

/-- Claim C9 counterexample: the result of the packing run depends on the
enumeration order of the candidate coordinate sets, which in Go is the
iteration order of a map — unspecified and randomized between runs.  On
`[2×2, 1×1]` the candidates `(2, 0)` and `(0, 2)` tie on (area, center
distance), so whichever is visited first wins: the reversed enumeration
yields a different layout and different returned dimensions than the
canonical one. -/
theorem pack_not_run_deterministic :
    packAux revCandidatePositions [⟨2, 2⟩, ⟨1, 1⟩] ≠ Pack [⟨2, 2⟩, ⟨1, 1⟩] := by decide

/-- Claim C9 (amended): two runs of `Pack` on the identical input collection
yield identical return values and placements provided the internal candidate
enumeration orders (Go map iteration orders) used by the two runs are also
identical. -/
theorem packAux_deterministic (o1 o2 : List Placement → List Int × List Int)
    (rects1 rects2 : List Rectangle) (ho : ∀ ps, o1 ps = o2 ps)
    (hr : rects1 = rects2) : packAux o1 rects1 = packAux o2 rects2 := by
  have hfn : o1 = o2 := funext ho
  rw [hfn, hr]

/-- Witness for C9 (amended) at a concrete input. -/
theorem packAux_deterministic_witness :
    (∀ ps, getCandidatePositions ps = getCandidatePositions ps) ∧
      ([⟨2, 2⟩, ⟨1, 1⟩] : List Rectangle) = [⟨2, 2⟩, ⟨1, 1⟩] ∧
      packAux getCandidatePositions [⟨2, 2⟩, ⟨1, 1⟩] =
        packAux getCandidatePositions [⟨2, 2⟩, ⟨1, 1⟩] :=
  ⟨fun _ => rfl, rfl,
    packAux_deterministic getCandidatePositions getCandidatePositions
      [⟨2, 2⟩, ⟨1, 1⟩] [⟨2, 2⟩, ⟨1, 1⟩] (fun _ => rfl) rfl⟩

end BinPack
